import Mathlib

/-!
Verification of the indexing and retrieval pipeline of the `ama`
question-answering tool (Go source, package `main`).

The Go source is shallowly embedded:

* `float64` values are modelled as rationals (`ℚ`): the claims under
  study concern which components are combined and when errors occur,
  not floating-point rounding.
* Go panics (out-of-range slice indexing) and errors are modelled with
  `Option` / `Except`.
* The three fixed regular expressions of the chunker
  (`<script[^>]*>.*?</script>`, `<[hH]\d+[^>]*>`, `<[^>]*>`) are
  embedded as one-pass character state machines implementing Go's
  leftmost-first matching for exactly these patterns.  The script
  machine assumes its input is newline-free, which `Chunks` establishes
  by replacing newlines with spaces before any regex runs, mirroring
  the source.
* File-system state (the persisted index at the well-known path
  `index.json.gz`, and the per-document source files re-read at query
  time) is passed explicitly.
-/

namespace Ama

/-! ## Data model (`Vector`, `Document`, `ChunkRef`, `Embedding`, `Index`) -/

/-- `type Vector []float64`, components modelled as rationals. -/
abbrev Vector : Type := List ℚ

/-- `type Document struct { Title, Link, HTML string }`. -/
structure Document where
  title : String
  link : String
  html : String
deriving DecidableEq, Inhabited

/-- `type ChunkRef struct { DocumentID, ChunkNumber int }`. -/
structure ChunkRef where
  documentID : Int
  chunkNumber : Int
deriving DecidableEq, Inhabited

/-- `type Embedding struct { Vector Vector; ChunkID int }`. -/
structure Embedding where
  vector : Vector
  chunkID : Int
deriving DecidableEq, Inhabited

/-- `type Index struct { Documents []string; Embeddings []Embedding; ChunkRefs []ChunkRef }`. -/
structure Index where
  documents : List String
  embeddings : List Embedding
  chunkRefs : List ChunkRef
deriving DecidableEq, Inhabited

/-! ## Chunker

`Document.Chunks` in the source:

1. replace `"\n"` with `" "`;
2. `htmlScriptPat.ReplaceAllString(v, " ")` with
   `htmlScriptPat = <script[^>]*>.*?</script>`;
3. `htmlHeadersPat.Split(v, -1)` with `htmlHeadersPat = <[hH]\d+[^>]*>`;
4. `htmlTagPat.ReplaceAllString(c, " ")` on each segment with
   `htmlTagPat = <[^>]*>`.

Each regex pass is a left-to-right scan for non-overlapping
leftmost-first matches, embedded below as a structural recursion over
the character list. -/

/-- Step 1: `strings.ReplaceAll(d.HTML, "\n", " ")`. -/
def newlineToSpace (l : List Char) : List Char :=
  l.map fun c => if c = '\n' then ' ' else c

/-- The characters of the literal `script` (the open tag name). -/
def scriptLit : List Char := ['s', 'c', 'r', 'i', 'p', 't']

/-- The characters of the literal `</script>` (the close tag). -/
def closeLit : List Char := ['<', '/', 's', 'c', 'r', 'i', 'p', 't', '>']

/-- Scanner state for the `<script[^>]*>.*?</script>` pass.

* `scan`: outside any candidate match;
* `lit buf r rs`: matching the literal `<script`; `buf` holds the
  consumed candidate characters (reversed, for flushing on failure) and
  `r :: rs` the still-unmatched literal characters;
* `tag buf`: literal matched, consuming `[^>]*` up to the first `>`;
* `body buf r rs`: past the `>`, `.*?` extending until the first
  occurrence of `</script>`; `r :: rs` is the unmatched part of that
  literal.

Both literals have pairwise-distinct characters with `<` only at the
front, so the failure fallback of the scan is: restart at the current
character when it is `<`, otherwise drop to plain scanning.  A
candidate that fails with no input left is flushed verbatim: its
failure means no `>` (resp. no `</script>`) remains, so no later match
exists either. -/
inductive ScriptMode
  | scan
  | lit (buf : List Char) (r : Char) (rs : List Char)
  | tag (buf : List Char)
  | body (buf : List Char) (r : Char) (rs : List Char)

/-- One-pass engine for `ReplaceAllString` with the script pattern,
replacing each match with a single space. -/
def scriptGo : ScriptMode → List Char → List Char
  | .scan, [] => []
  | .scan, c :: cs =>
    if c = '<' then scriptGo (.lit ['<'] 's' scriptLit.tail) cs
    else c :: scriptGo .scan cs
  | .lit buf _ _, [] => buf.reverse
  | .lit buf r rs, c :: cs =>
    if c = r then
      match rs with
      | [] => scriptGo (.tag (c :: buf)) cs
      | r2 :: rs2 => scriptGo (.lit (c :: buf) r2 rs2) cs
    else if c = '<' then buf.reverse ++ scriptGo (.lit ['<'] 's' scriptLit.tail) cs
    else buf.reverse ++ (c :: scriptGo .scan cs)
  | .tag buf, [] => buf.reverse
  | .tag buf, c :: cs =>
    if c = '>' then scriptGo (.body ('>' :: buf) '<' closeLit.tail) cs
    else scriptGo (.tag (c :: buf)) cs
  | .body buf _ _, [] => buf.reverse
  | .body buf r rs, c :: cs =>
    if c = r then
      match rs with
      | [] => ' ' :: scriptGo .scan cs
      | r2 :: rs2 => scriptGo (.body (c :: buf) r2 rs2) cs
    else if c = '<' then scriptGo (.body (c :: buf) '/' closeLit.tail.tail) cs
    else scriptGo (.body (c :: buf) '<' closeLit.tail) cs

/-- Step 2: `htmlScriptPat.ReplaceAllString(v, " ")`. -/
def replaceScripts (l : List Char) : List Char := scriptGo .scan l

/-- `\d` of the header pattern: the ASCII digits. -/
def isAsciiDigit (c : Char) : Bool := '0' ≤ c && c ≤ '9'

/-- Scanner state for the `<[hH]\d+[^>]*>` split pass.

* `out`: outside any candidate match;
* `m1`: saw `<`;
* `m2 h`: saw `<` then `h` or `H`;
* `m3 buf`: saw `<`, `h`/`H` and a digit — the match is committed and
  extends to the first `>`; `buf` holds its consumed characters
  (reversed) for flushing if the input ends first. -/
inductive HeadMode
  | out
  | m1
  | m2 (h : Char)
  | m3 (buf : List Char)

/-- One-pass engine for `Split` on the header pattern.  `seg` is the
current segment, reversed.  Matches become segment boundaries and are
dropped from the output; failed candidates flush back into the current
segment. -/
def headGo : HeadMode → List Char → List Char → List (List Char)
  | .out, seg, [] => [seg.reverse]
  | .out, seg, c :: cs =>
    if c = '<' then headGo .m1 seg cs else headGo .out (c :: seg) cs
  | .m1, seg, [] => [('<' :: seg).reverse]
  | .m1, seg, c :: cs =>
    if c = 'h' ∨ c = 'H' then headGo (.m2 c) seg cs
    else if c = '<' then headGo .m1 ('<' :: seg) cs
    else headGo .out (c :: '<' :: seg) cs
  | .m2 h, seg, [] => [(h :: '<' :: seg).reverse]
  | .m2 h, seg, c :: cs =>
    if isAsciiDigit c then headGo (.m3 [c, h, '<']) seg cs
    else if c = '<' then headGo .m1 (h :: '<' :: seg) cs
    else headGo .out (c :: h :: '<' :: seg) cs
  | .m3 buf, seg, [] => [(buf ++ seg).reverse]
  | .m3 buf, seg, c :: cs =>
    if c = '>' then seg.reverse :: headGo .out [] cs
    else headGo (.m3 (c :: buf)) seg cs

/-- Step 3: `htmlHeadersPat.Split(v, -1)`. -/
def splitHeaders (l : List Char) : List (List Char) := headGo .out [] l

/-- One-pass engine for `ReplaceAllString` with `<[^>]*>`: the state is
the pending buffer (reversed) accumulated since an unresolved `<`.  A
pending buffer closed by `>` is a match, replaced by one space; a
buffer never closed is flushed verbatim at the end of input. -/
def tagGo : Option (List Char) → List Char → List Char
  | none, [] => []
  | some buf, [] => buf.reverse
  | none, c :: cs =>
    if c = '<' then tagGo (some ['<']) cs else c :: tagGo none cs
  | some buf, c :: cs =>
    if c = '>' then ' ' :: tagGo none cs else tagGo (some (c :: buf)) cs

/-- Step 4: `htmlTagPat.ReplaceAllString(c, " ")`. -/
def replaceTags (l : List Char) : List Char := tagGo none l

/-- The whole preprocessing applied before the split: newline
replacement followed by script removal. -/
def preChunk (l : List Char) : List Char := replaceScripts (newlineToSpace l)

/-- `func (d *Document) Chunks() []string`. -/
def Document.Chunks (d : Document) : List String :=
  ((splitHeaders (preChunk d.html.data)).map replaceTags).map String.mk

/-! ### Counting header matches

`headCountGo` runs the same scanner as `headGo` but counts the matches
instead of collecting the segments; `Split` yields one segment more
than there are matches. -/

/-- Match counter for the header pattern, same transitions as
`headGo`. -/
def headCountGo : HeadMode → List Char → Nat
  | .out, [] => 0
  | .out, c :: cs =>
    if c = '<' then headCountGo .m1 cs else headCountGo .out cs
  | .m1, [] => 0
  | .m1, c :: cs =>
    if c = 'h' ∨ c = 'H' then headCountGo (.m2 c) cs
    else if c = '<' then headCountGo .m1 cs
    else headCountGo .out cs
  | .m2 _, [] => 0
  | .m2 h, c :: cs =>
    if isAsciiDigit c then headCountGo (.m3 [c, h, '<']) cs
    else if c = '<' then headCountGo .m1 cs
    else headCountGo .out cs
  | .m3 _, [] => 0
  | .m3 buf, c :: cs =>
    if c = '>' then 1 + headCountGo .out cs else headCountGo (.m3 (c :: buf)) cs

/-- The number of matches of `htmlHeadersPat` found while splitting. -/
def countHeaders (l : List Char) : Nat := headCountGo .out l

/-- The pending candidate characters a scanner state owes back to the
current segment if the input ends. -/
def headStateBuf : HeadMode → List Char
  | .out => []
  | .m1 => ['<']
  | .m2 h => ['<', h]
  | .m3 buf => buf.reverse

/-! ## Vector distance

`func (v Vector) Distance(v2 Vector) float64` loops over the receiver
`v` and indexes `v2` at each position: it panics (`none`) exactly when
`v2` is shorter than `v`, and otherwise sums the squared
component-wise differences over the receiver's length — silently
ignoring any excess components of `v2`. -/

/-- The `Distance` loop: iterate over the receiver, index the
argument, `none` on an out-of-range access. -/
def distAux : List ℚ → List ℚ → Option ℚ
  | [], _ => some 0
  | _ :: _, [] => none
  | x :: xs, y :: ys => (distAux xs ys).map fun s => (x - y) * (x - y) + s

/-- `func (v Vector) Distance(v2 Vector) float64`. -/
def Vector.Distance (v v2 : Vector) : Option ℚ := distAux v v2

/-- Sum of squared component-wise differences over the zipped common
length (the value `Distance` returns whenever it does not panic). -/
def distSum (v q : Vector) : ℚ :=
  ((v.zip q).map fun p => (p.1 - p.2) * (p.1 - p.2)).sum

/-! ## Index store: serialization

`runIndex` persists the index with `json.NewEncoder(gz).Encode(idx)`
and `loadIndex` reads it back with `json.NewDecoder(gz).Decode(&idx)`.
The codec is embedded at the level of JSON values: `JVal` is the JSON
data model, `encodeIndex` follows the struct tags of the source
(`docs`, `embeddings` / `vec`, `chunk` / `chunks` / `doc`, `chunk`), and
`decodeIndex` mirrors `encoding/json` decoding into those structs
(fields matched by key, unknown keys ignored, `null` decoded as the
zero slice, numbers decoded into `int` fields only when integral).
The gzip byte layer and JSON text layer are external library code,
modelled as the identity on JSON values. -/

/-- JSON values, with numbers as rationals. -/
inductive JVal
  | jnull
  | jbool (b : Bool)
  | jnum (q : ℚ)
  | jstr (s : String)
  | jarr (items : List JVal)
  | jobj (fields : List (String × JVal))

/-- Decode a JSON value into a Go `string`. -/
def decodeString : JVal → Option String
  | .jstr s => some s
  | _ => none

/-- Decode a JSON value into a Go `int` (fails on non-integral
numbers, as `encoding/json` does). -/
def decodeInt : JVal → Option Int
  | .jnum q => if q.den = 1 then some q.num else none
  | _ => none

/-- Decode a JSON value into a Go `float64`. -/
def decodeFloat : JVal → Option ℚ
  | .jnum q => some q
  | _ => none

/-- Element-wise decoding of a JSON array's items. -/
def decodeList (dec : JVal → Option α) : List JVal → Option (List α)
  | [] => some []
  | j :: js => (dec j).bind fun a => (decodeList dec js).map fun as => a :: as

/-- Decode a JSON array (`encoding/json` slice decoding; `null`
becomes the nil slice). -/
def decodeArr (dec : JVal → Option α) : JVal → Option (List α)
  | .jnull => some []
  | .jarr items => decodeList dec items
  | _ => none

/-- `Vector` as encoded by `encoding/json`: an array of numbers. -/
def encodeVector (v : Vector) : JVal := .jarr (v.map .jnum)

def decodeVector : JVal → Option Vector := decodeArr decodeFloat

/-- `Embedding` with tags `vec` and `chunk`. -/
def encodeEmbedding (e : Embedding) : JVal :=
  .jobj [("vec", encodeVector e.vector), ("chunk", .jnum (e.chunkID : ℚ))]

/-- Fold `encoding/json` object decoding over the fields of an
`Embedding` object: keys matched by tag, unknown keys ignored, later
duplicates win. -/
def decodeEmbFields : Embedding → List (String × JVal) → Option Embedding
  | e, [] => some e
  | e, (k, v) :: rest =>
    if k = "vec" then
      (decodeVector v).bind fun w => decodeEmbFields ⟨w, e.chunkID⟩ rest
    else if k = "chunk" then
      (decodeInt v).bind fun n => decodeEmbFields ⟨e.vector, n⟩ rest
    else decodeEmbFields e rest

def decodeEmbedding : JVal → Option Embedding
  | .jnull => some ⟨[], 0⟩
  | .jobj fields => decodeEmbFields ⟨[], 0⟩ fields
  | _ => none

/-- `ChunkRef` with tags `doc` and `chunk`. -/
def encodeChunkRef (r : ChunkRef) : JVal :=
  .jobj [("doc", .jnum (r.documentID : ℚ)), ("chunk", .jnum (r.chunkNumber : ℚ))]

def decodeRefFields : ChunkRef → List (String × JVal) → Option ChunkRef
  | r, [] => some r
  | r, (k, v) :: rest =>
    if k = "doc" then
      (decodeInt v).bind fun n => decodeRefFields ⟨n, r.chunkNumber⟩ rest
    else if k = "chunk" then
      (decodeInt v).bind fun n => decodeRefFields ⟨r.documentID, n⟩ rest
    else decodeRefFields r rest

def decodeChunkRef : JVal → Option ChunkRef
  | .jnull => some ⟨0, 0⟩
  | .jobj fields => decodeRefFields ⟨0, 0⟩ fields
  | _ => none

/-- `Index` with tags `docs`, `embeddings` and `chunks`. -/
def encodeIndex (idx : Index) : JVal :=
  .jobj
    [("docs", .jarr (idx.documents.map .jstr)),
     ("embeddings", .jarr (idx.embeddings.map encodeEmbedding)),
     ("chunks", .jarr (idx.chunkRefs.map encodeChunkRef))]

def decodeIdxFields : Index → List (String × JVal) → Option Index
  | i, [] => some i
  | i, (k, v) :: rest =>
    if k = "docs" then
      (decodeArr decodeString v).bind fun ds =>
        decodeIdxFields ⟨ds, i.embeddings, i.chunkRefs⟩ rest
    else if k = "embeddings" then
      (decodeArr decodeEmbedding v).bind fun es =>
        decodeIdxFields ⟨i.documents, es, i.chunkRefs⟩ rest
    else if k = "chunks" then
      (decodeArr decodeChunkRef v).bind fun rs =>
        decodeIdxFields ⟨i.documents, i.embeddings, rs⟩ rest
    else decodeIdxFields i rest

def decodeIndex : JVal → Option Index
  | .jnull => some ⟨[], [], []⟩
  | .jobj fields => decodeIdxFields ⟨[], [], []⟩ fields
  | _ => none

/-! ## Index store: the file at the well-known path

`runIndex` persists with `os.Create("index.json.gz")` followed by the
gzip/JSON writes: `os.Create` truncates an existing file in place
before a single byte of the new index is written.  The observable
states of the well-known path during a save are embedded as a scan of
persist events; a crash at any point leaves the file in the state
reached so far.  `loadIndex` maps each state to what
`os.Open` + `gzip.NewReader` + `json.Decode` would produce. -/

inductive LoadErr
  | notFound
  | corrupt
deriving DecidableEq

/-- The content of `index.json.gz`. -/
inductive FileState
  | absent
  | truncated
  | partialData
  | full (idx : Index)
deriving DecidableEq

/-- `func loadIndex() (idx Index, err error)`: missing file is the
open error, empty or partial gzip/JSON data is a decode error, a
complete file yields the index (by `decodeIndex_encodeIndex`). -/
def loadIndex : FileState → Except LoadErr Index
  | .absent => .error .notFound
  | .truncated => .error .corrupt
  | .partialData => .error .corrupt
  | .full idx => .ok idx

/-- The persist steps of `runIndex`: `os.Create`, the gzip/JSON body
writes, and the final successful flush. -/
inductive PersistEvent
  | create
  | writeBody
  | finish (idx : Index)

/-- Effect of one persist event on the file. -/
def stepFile : FileState → PersistEvent → FileState
  | _, .create => .truncated
  | _, .writeBody => .partialData
  | _, .finish idx => .full idx

def persistEvents (idx : Index) : List PersistEvent :=
  [.create, .writeBody, .finish idx]

/-- All states of the well-known path during a save over a prior state
`pre`: a crash (or an encode error exiting `runIndex` early) leaves
the file in one of these. -/
def persistStates (pre : FileState) (idx : Index) : List FileState :=
  (persistEvents idx).scanl stepFile pre

/-! ## Indexer

The document loop of `runIndex` (the version with the skip-and-warn
policy: `log.Printf("warning: ...")` followed by `continue` on an open
failure, a decode failure, or an embeddings-call failure).  Reading
and parsing a document file is modelled by `read : String →
ReadResult`; the batched embeddings call by `embed : List String →
Option (List Vector)` (`nil` on provider failure; one vector per entry
of `resp.Data`, iterated with its index `i`). -/

/-- Outcome of `os.Open` + `json.Decode` on one document path. -/
inductive ReadResult
  | openFail
  | parseFail
  | ok (doc : Document)
deriving DecidableEq

/-- One iteration of the `runIndex` scanner loop, acting on the
accumulated `docs` / `embeddings` / `chunkRefs` state. -/
def indexStep (read : String → ReadResult)
    (embed : List String → Option (List Vector))
    (acc : Index) (path : String) : Index :=
  match read path with
  | .openFail => acc
  | .parseFail => acc
  | .ok doc =>
    match embed doc.Chunks with
    | none => acc
    | some vecs =>
      { documents := acc.documents ++ [path]
        embeddings := acc.embeddings ++
          vecs.enum.map fun p =>
            ⟨p.2, (acc.chunkRefs.length : Int) + (p.1 : Int)⟩
        chunkRefs := acc.chunkRefs ++
          vecs.enum.map fun p =>
            ⟨(acc.documents.length : Int), (p.1 : Int)⟩ }

/-- The whole indexing accumulation over the stdin path list, starting
from the three empty slices. -/
def buildIndex (read : String → ReadResult)
    (embed : List String → Option (List Vector))
    (paths : List String) : Index :=
  paths.foldl (indexStep read embed) ⟨[], [], []⟩

/-! ## Retriever

The retrieval phase of `runQuery`: sort the embeddings by distance to
the query embedding, then walk them accumulating chunk texts until the
4 KiB byte budget would be exceeded.  Re-reading a source document is
`fsDocs : String → Option Document` (`none` when the open or the
decode fails, which aborts the query); out-of-range positional lookups
are the Go panics. -/

/-- Go slice indexing with an `int` index: panics (`none`) when
negative or out of range. -/
def getAt (l : List α) (i : Int) : Option α :=
  if 0 ≤ i then l[i.toNat]? else none

/-- Ranking order of `sort.Slice`: the comparator of the source is
`Distance(e_i, q) < Distance(e_j, q)`, so the sorted sequence is
non-decreasing in distance.  In the regime where no comparison panics
(checked by `retrieve` below) the distance value is `distSum`. -/
def qLe (q : Vector) (a b : Embedding) : Prop :=
  distSum a.vector q ≤ distSum b.vector q

instance (q : Vector) : DecidableRel (qLe q) := fun a b =>
  inferInstanceAs (Decidable (distSum a.vector q ≤ distSum b.vector q))

/-- The reordered embeddings sequence after `sort.Slice`.  The source
sort is unstable and tie order is undefined; the model fixes the
stable insertion-sort permutation, which is pairwise sorted under the
same criterion. -/
def rankEmbeddings (embs : List Embedding) (q : Vector) : List Embedding :=
  embs.insertionSort (qLe q)

/-- Failure modes of the retrieval walk: a Go panic (out-of-range
positional lookup, or a `Distance` panic inside the sort comparator),
or a document re-read failure returned as the query error. -/
inductive QueryErr
  | panic
  | docFail
deriving DecidableEq

/-- Resolve one ranked embedding to its chunk text, exactly as the
loop body does: `idx.ChunkRefs[emb.ChunkID]`, then
`idx.Documents[chunkRef.DocumentID]`, then re-read and re-chunk the
document, then `doc.Chunks()[chunkRef.ChunkNumber]`. -/
def resolveChunk (fsDocs : String → Option Document) (idx : Index)
    (e : Embedding) : Except QueryErr String :=
  match getAt idx.chunkRefs e.chunkID with
  | none => .error .panic
  | some cr =>
    match getAt idx.documents cr.documentID with
    | none => .error .panic
    | some path =>
      match fsDocs path with
      | none => .error .docFail
      | some doc =>
        match getAt doc.Chunks cr.chunkNumber with
        | none => .error .panic
        | some chunk => .ok chunk

/-- `4 * 1024`, the context byte budget of `runQuery`. -/
def maxContextBytes : Nat := 4 * 1024

/-- The accumulation loop over the sorted embeddings:
`if contextSize + len(chunkContent) > 4*1024 { break }`, otherwise
append the chunk and add its byte length to the running total. -/
def retrieveLoop (fsDocs : String → Option Document) (idx : Index) :
    List Embedding → Nat → Except QueryErr (List String)
  | [], _ => .ok []
  | e :: rest, size =>
    match resolveChunk fsDocs idx e with
    | .error err => .error err
    | .ok chunk =>
      if maxContextBytes < size + chunk.utf8ByteSize then .ok []
      else
        (retrieveLoop fsDocs idx rest (size + chunk.utf8ByteSize)).map
          fun tl => chunk :: tl

/-- The retrieval phase of `runQuery`: the comparator panic of
`Distance` (query shorter than some embedding vector) is modelled as
an upfront check, then the budgeted walk runs over the sorted
sequence. -/
def retrieve (fsDocs : String → Option Document) (idx : Index)
    (q : Vector) : Except QueryErr (List String) :=
  if idx.embeddings.all fun e => (Vector.Distance e.vector q).isSome then
    retrieveLoop fsDocs idx (rankEmbeddings idx.embeddings q) 0
  else .error .panic

/-- The in-memory index after the retrieval phase: `sort.Slice`
mutates `idx.Embeddings` in place; nothing else is written. -/
def afterQuery (idx : Index) (q : Vector) : Index :=
  { idx with embeddings := rankEmbeddings idx.embeddings q }

/-! ## Concrete fixtures used by witnesses and counterexamples -/

/-- Document A of the spec scenario. -/
def docA : Document := ⟨"A", "a", "<h1>Intro</h1>hello world"⟩

/-- Document B of the spec scenario. -/
def docB : Document := ⟨"B", "b", "no headings here"⟩

/-- A document with empty HTML. -/
def docEmpty : Document := ⟨"E", "e", ""⟩

def pathA : String := "docs/a.json"

def pathB : String := "docs/b.json"

def pathBad : String := "docs/missing.json"

/-- A two-document corpus on disk. -/
def fs0 : String → Option Document := fun p =>
  if p = pathA then some docA else if p = pathB then some docB else none

/-- Reading the same corpus during indexing; the bad path fails to
open. -/
def read0 : String → ReadResult := fun p =>
  if p = pathA then .ok docA else if p = pathB then .ok docB else .openFail

/-- A stub embedding provider: one fixed vector per chunk. -/
def embed0 : List String → Option (List Vector) := fun chunks =>
  some (chunks.map fun _ => ([1, 0] : List ℚ))

/-- A one-embedding index over document B. -/
def idx1 : Index := ⟨[pathB], [⟨[0, 1], 0⟩], [⟨0, 0⟩]⟩

def q1 : Vector := [0, 1]

/-- A small nonempty index for the persistence counterexample. -/
def idxNew : Index := ⟨[pathA], [⟨[1, 0], 0⟩], [⟨0, 0⟩]⟩

/-- The empty index, standing for a previously persisted valid one. -/
def idxOld : Index := ⟨[], [], []⟩

/-! ## Supporting lemmas for the chunker, distance and codec claims -/

lemma headGo_length (l : List Char) :
    ∀ (m : HeadMode) (seg : List Char),
      (headGo m seg l).length = headCountGo m l + 1 := by
  induction l with
  | nil => intro m seg; cases m <;> simp [headGo, headCountGo]
  | cons c cs ih =>
    intro m seg
    cases m <;> simp only [headGo, headCountGo] <;> split_ifs <;>
      simp [ih, Nat.add_comm]

lemma headGo_of_count_zero (l : List Char) :
    ∀ (m : HeadMode) (seg : List Char), headCountGo m l = 0 →
      headGo m seg l = [seg.reverse ++ headStateBuf m ++ l] := by
  induction l with
  | nil => intro m seg _; cases m <;> simp [headGo, headStateBuf]
  | cons c cs ih =>
    intro m seg h
    cases m <;> simp only [headGo, headCountGo] at h ⊢ <;> split_ifs at h ⊢ <;>
      simp_all [ih, headStateBuf]

lemma distAux_eq (v q : List ℚ) :
    distAux v q = if q.length < v.length then none else some (distSum v q) := by
  induction v generalizing q with
  | nil => simp [distAux, distSum]
  | cons x xs ih =>
    cases q with
    | nil => simp [distAux]
    | cons y ys =>
      simp only [distAux, ih]
      by_cases h : ys.length < xs.length
      · simp [h, List.length_cons, Nat.add_lt_add_iff_right]
      · simp [h, List.length_cons, Nat.add_lt_add_iff_right, distSum,
          List.zip_cons_cons]

lemma decodeList_map {α : Type} {dec : JVal → Option α} {enc : α → JVal}
    (l : List α) (h : ∀ a ∈ l, dec (enc a) = some a) :
    decodeList dec (l.map enc) = some l := by
  induction l with
  | nil => simp [decodeList]
  | cons a as ih =>
    simp only [List.map_cons, decodeList, h a (by simp)]
    simp only [Option.bind_eq_bind, Option.some_bind]
    rw [ih fun a ha => h a (by simp [ha])]
    rfl

lemma decodeVector_encodeVector (v : Vector) :
    decodeVector (encodeVector v) = some v := by
  simpa [decodeVector, encodeVector, decodeArr] using
    @decodeList_map _ decodeFloat JVal.jnum v
      (fun a _ => by simp [decodeFloat])

lemma decodeEmbedding_encodeEmbedding (e : Embedding) :
    decodeEmbedding (encodeEmbedding e) = some e := by
  simp [decodeEmbedding, encodeEmbedding, decodeEmbFields,
    decodeVector_encodeVector, decodeInt]

lemma decodeChunkRef_encodeChunkRef (r : ChunkRef) :
    decodeChunkRef (encodeChunkRef r) = some r := by
  simp [decodeChunkRef, encodeChunkRef, decodeRefFields, decodeInt]

lemma decodeIndex_encodeIndex (idx : Index) :
    decodeIndex (encodeIndex idx) = some idx := by
  simp [decodeIndex, encodeIndex, decodeIdxFields, decodeArr,
    @decodeList_map _ decodeString JVal.jstr idx.documents
      (fun a _ => by simp [decodeString]),
    decodeList_map idx.embeddings
      (fun a _ => decodeEmbedding_encodeEmbedding a),
    decodeList_map idx.chunkRefs
      (fun a _ => decodeChunkRef_encodeChunkRef a)]

/-! ## Supporting lemmas for the retrieval claims -/

instance {ε α : Type} [DecidableEq ε] [DecidableEq α] :
    DecidableEq (Except ε α) := fun a b =>
  match a, b with
  | .error e, .error f =>
    if h : e = f then .isTrue (by rw [h]) else .isFalse (by simp [h])
  | .ok x, .ok y =>
    if h : x = y then .isTrue (by rw [h]) else .isFalse (by simp [h])
  | .error _, .ok _ => .isFalse (by simp)
  | .ok _, .error _ => .isFalse (by simp)

lemma rank_sorted (embs : List Embedding) (q : Vector) :
    List.Pairwise (qLe q) (rankEmbeddings embs q) := by
  haveI : IsTotal Embedding (qLe q) := ⟨fun a b => le_total _ _⟩
  haveI : IsTrans Embedding (qLe q) := ⟨fun _ _ _ => le_trans⟩
  exact List.sorted_insertionSort (qLe q) embs

lemma retrieveLoop_budget (fsDocs : String → Option Document) (idx : Index) :
    ∀ (embs : List Embedding) (size : Nat) (texts : List String),
      retrieveLoop fsDocs idx embs size = .ok texts →
      texts = [] ∨
        size + (texts.map String.utf8ByteSize).sum ≤ maxContextBytes := by
  intro embs
  induction embs with
  | nil =>
    intro size texts h
    simp only [retrieveLoop, Except.ok.injEq] at h
    exact Or.inl h.symm
  | cons e rest ih =>
    intro size texts h
    simp only [retrieveLoop] at h
    split at h
    · cases h
    · split at h
      · cases h
        exact Or.inl rfl
      · rename_i chunk hres hb
        cases hloop : retrieveLoop fsDocs idx rest (size + chunk.utf8ByteSize) with
        | error err => rw [hloop] at h; cases h
        | ok tl =>
          rw [hloop] at h
          simp only [Except.map, Except.ok.injEq] at h
          subst h
          rcases ih (size + chunk.utf8ByteSize) tl hloop with htl | hle
          · subst htl
            right
            simp only [List.map_cons, List.map_nil, List.sum_cons,
              List.sum_nil]
            omega
          · right
            simp only [List.map_cons, List.sum_cons]
            omega

lemma retrieveLoop_ranked (fsDocs : String → Option Document) (idx : Index) :
    ∀ (embs : List Embedding) (size : Nat) (texts : List String),
      retrieveLoop fsDocs idx embs size = .ok texts →
      ∃ k, List.Forall₂ (fun t e => resolveChunk fsDocs idx e = .ok t)
        texts (embs.take k) := by
  intro embs
  induction embs with
  | nil =>
    intro size texts h
    simp only [retrieveLoop, Except.ok.injEq] at h
    exact ⟨0, h ▸ List.Forall₂.nil⟩
  | cons e rest ih =>
    intro size texts h
    simp only [retrieveLoop] at h
    split at h
    · cases h
    · split at h
      · cases h
        exact ⟨0, List.Forall₂.nil⟩
      · rename_i chunk hres hb
        cases hloop : retrieveLoop fsDocs idx rest (size + chunk.utf8ByteSize) with
        | error err => rw [hloop] at h; cases h
        | ok tl =>
          rw [hloop] at h
          simp only [Except.map, Except.ok.injEq] at h
          subst h
          obtain ⟨k, hk⟩ := ih (size + chunk.utf8ByteSize) tl hloop
          exact ⟨k + 1, by
            rw [List.take_succ_cons]
            exact List.Forall₂.cons hres hk⟩

/-! ## Supporting lemmas for the indexer claims -/

lemma indexStep_inv (read : String → ReadResult)
    (embed : List String → Option (List Vector)) (acc : Index) (path : String)
    (h1 : acc.embeddings.length = acc.chunkRefs.length)
    (h2 : ∀ (i : Nat) (e : Embedding),
      acc.embeddings[i]? = some e → e.chunkID = (i : Int)) :
    (indexStep read embed acc path).embeddings.length =
      (indexStep read embed acc path).chunkRefs.length ∧
    ∀ (i : Nat) (e : Embedding),
      (indexStep read embed acc path).embeddings[i]? = some e →
        e.chunkID = (i : Int) := by
  unfold indexStep
  split
  next => exact ⟨h1, h2⟩
  next => exact ⟨h1, h2⟩
  next doc =>
  split
  next => exact ⟨h1, h2⟩
  next vecs =>
  constructor
  · simp [List.length_append, List.enum_length, h1]
  · intro i e he
    simp only at he
    rw [List.getElem?_append] at he
    by_cases hi : i < acc.embeddings.length
    · rw [if_pos hi] at he
      exact h2 i e he
    · rw [if_neg hi] at he
      rw [List.getElem?_map, List.getElem?_enum] at he
      obtain ⟨p, hp, rfl⟩ := Option.map_eq_some'.mp he
      obtain ⟨v, hv, rfl⟩ := Option.map_eq_some'.mp hp
      simp only
      omega

lemma foldl_indexStep_inv (read : String → ReadResult)
    (embed : List String → Option (List Vector)) :
    ∀ (paths : List String) (acc : Index),
      acc.embeddings.length = acc.chunkRefs.length →
      (∀ (i : Nat) (e : Embedding),
        acc.embeddings[i]? = some e → e.chunkID = (i : Int)) →
      (paths.foldl (indexStep read embed) acc).embeddings.length =
        (paths.foldl (indexStep read embed) acc).chunkRefs.length ∧
      ∀ (i : Nat) (e : Embedding),
        (paths.foldl (indexStep read embed) acc).embeddings[i]? = some e →
          e.chunkID = (i : Int) := by
  intro paths
  induction paths with
  | nil => intro acc h1 h2; exact ⟨h1, h2⟩
  | cons p ps ih =>
    intro acc h1 h2
    rw [List.foldl_cons]
    obtain ⟨g1, g2⟩ := indexStep_inv read embed acc p h1 h2
    exact ih (indexStep read embed acc p) g1 g2

/-! ## The claims -/

/-- C1, as stated, is false: chunking keeps the heading's inner text.
Splitting removes only the opening heading tag, so document A chunks
to two segments whose second still contains the word Intro, not
`["", " hello world"]`. -/
theorem ama_c1_counterexample :
    ¬ (Document.Chunks docA = ["", " hello world"] ∧
       Document.Chunks docB = ["no headings here"]) := by
  decide

/-- C1 amended: chunking document A (HTML
`<h1>Intro</h1>hello world`) yields exactly `["", "Intro hello
world"]` — the empty content before the first heading, then the
heading text and body with the closing tag replaced by a space — and
chunking document B (`no headings here`) yields exactly
`["no headings here"]`. -/
theorem ama_c1_amended :
    Document.Chunks docA = ["", "Intro hello world"] ∧
    Document.Chunks docB = ["no headings here"] := by
  decide

/-- C2, as stated, is false: `runIndex` persists through `os.Create`
on the well-known path, which truncates the prior valid index before
the new bytes are written, so a crash (or encode error) mid-save
leaves a state from which the prior index is no longer loadable. -/
theorem ama_c2_counterexample :
    ¬ ∀ s ∈ (persistStates (FileState.full idxOld) idxNew).dropLast,
        loadIndex s = .ok idxOld := by
  decide

/-- C2 amended: the prior index survives only up to the point where
`os.Create` runs (the first state of the save); every intermediate
state after the create and before completion is unloadable (corrupt),
and only the completed save yields the new index. -/
theorem ama_c2_amended (pre : FileState) (idx : Index) :
    (persistStates pre idx).head? = some pre ∧
    (∀ s ∈ ((persistStates pre idx).drop 1).dropLast,
      loadIndex s = .error .corrupt) ∧
    (persistStates pre idx).getLast? = some (.full idx) := by
  refine ⟨?_, ?_, ?_⟩ <;>
    simp [persistStates, persistEvents, List.scanl, stepFile, loadIndex]

/-- Witness for the amended C2 at a concrete prior state. -/
theorem ama_c2_witness : loadIndex FileState.truncated = .error .corrupt :=
  (ama_c2_amended FileState.absent idxOld).2.1 FileState.truncated (by decide)

/-- C3, as stated, is false: `Distance` iterates over the receiver
and indexes the argument, so a strictly longer argument is silently
truncated instead of failing — `Distance [0] [0, 1]` succeeds (with
value 0) although the lengths differ. -/
theorem ama_c3_counterexample :
    ([0] : Vector).length ≠ ([0, 1] : Vector).length ∧
    Vector.Distance [0] [0, 1] = some 0 := by
  refine ⟨by decide, ?_⟩
  norm_num [Vector.Distance, distAux]

/-- C3 amended: `Distance a b` fails (index panic) exactly when `b`
is shorter than `a`; otherwise it returns the sum of squared
component-wise differences over `a`'s length, truncating a longer
`b` — in particular, for equal lengths it is the full squared
Euclidean distance. -/
theorem ama_c3_amended (a b : Vector) :
    (Vector.Distance a b = none ↔ b.length < a.length) ∧
    (a.length = b.length → Vector.Distance a b = some (distSum a b)) := by
  constructor
  · simp only [Vector.Distance, distAux_eq]
    by_cases h : b.length < a.length <;> simp [h]
  · intro h
    simp only [Vector.Distance, distAux_eq]
    rw [if_neg (by omega)]

/-- Witness for the amended C3 at a concrete equal-length pair. -/
theorem ama_c3_witness :
    Vector.Distance [1, 2] [3, 5] = some (distSum [1, 2] [3, 5]) :=
  (ama_c3_amended [1, 2] [3, 5]).2 (by decide)

/-- C4: for every `Index` value, decoding the encoded form succeeds
and reproduces every field — documents, embeddings (vectors and
chunkIDs) and chunkRefs — in their original order, and loading the
file state left by a completed save returns the index unchanged. -/
theorem ama_c4_roundtrip (idx : Index) :
    decodeIndex (encodeIndex idx) = some idx ∧
    loadIndex (FileState.full idx) = .ok idx :=
  ⟨decodeIndex_encodeIndex idx, rfl⟩

/-- C5: the retrieval walk never returns chunk texts whose total byte
length exceeds the 4096-byte budget, and it stops at (without
including) the first ranked chunk whose addition would overflow — in
particular, when the single closest chunk alone exceeds the budget
the returned context is empty. -/
theorem ama_c5_budget (fsDocs : String → Option Document) (idx : Index)
    (q : Vector) :
    (∀ texts, retrieve fsDocs idx q = .ok texts →
      (texts.map String.utf8ByteSize).sum ≤ maxContextBytes) ∧
    (∀ e rest chunk,
      rankEmbeddings idx.embeddings q = e :: rest →
      resolveChunk fsDocs idx e = .ok chunk →
      maxContextBytes < chunk.utf8ByteSize →
      (idx.embeddings.all fun e2 => (Vector.Distance e2.vector q).isSome) = true →
      retrieve fsDocs idx q = .ok []) := by
  constructor
  · intro texts h
    unfold retrieve at h
    split at h
    · rcases retrieveLoop_budget fsDocs idx _ 0 texts h with rfl | hle
      · simp
      · omega
    · cases h
  · intro e rest chunk hrank hres hover hall
    unfold retrieve
    rw [if_pos hall, hrank]
    simp only [retrieveLoop, hres]
    rw [if_pos (by omega)]

/-- Witness for C5: a concrete one-embedding index whose retrieval
succeeds within budget. -/
theorem ama_c5_witness :
    ((["no headings here"] : List String).map String.utf8ByteSize).sum ≤
      maxContextBytes :=
  (ama_c5_budget fs0 idx1 q1).1 ["no headings here"] (by decide)

/-- C6: the chunk texts accumulated by the retriever correspond, in
order, to a prefix of the distance-ranked embedding sequence, which is
pairwise sorted by non-decreasing distance to the query; and an index
with zero embeddings yields the empty context. -/
theorem ama_c6_ordering (fsDocs : String → Option Document) (idx : Index)
    (q : Vector) :
    (idx.embeddings = [] → retrieve fsDocs idx q = .ok []) ∧
    ∀ texts, retrieve fsDocs idx q = .ok texts →
      ∃ k, List.Forall₂ (fun t e => resolveChunk fsDocs idx e = .ok t) texts
          ((rankEmbeddings idx.embeddings q).take k) ∧
        List.Pairwise (qLe q) ((rankEmbeddings idx.embeddings q).take k) := by
  constructor
  · intro hnil
    unfold retrieve
    rw [hnil]
    simp [rankEmbeddings, List.insertionSort, retrieveLoop]
  · intro texts h
    unfold retrieve at h
    split at h
    · obtain ⟨k, hk⟩ := retrieveLoop_ranked fsDocs idx _ 0 texts h
      exact ⟨k, hk,
        List.Pairwise.sublist (List.take_sublist k _)
          (rank_sorted idx.embeddings q)⟩
    · cases h

/-- Witness for C6 at a concrete one-embedding index. -/
theorem ama_c6_witness :
    ∃ k, List.Forall₂ (fun t e => resolveChunk fs0 idx1 e = .ok t)
        ["no headings here"] ((rankEmbeddings idx1.embeddings q1).take k) ∧
      List.Pairwise (qLe q1) ((rankEmbeddings idx1.embeddings q1).take k) :=
  (ama_c6_ordering fs0 idx1 q1).2 ["no headings here"] (by decide)

/-- C7: under the skip-and-warn policy, a path whose document fails
to open or to parse contributes nothing to the built index — the run
continues over the remaining paths in order and produces exactly the
index it would have produced without that path. -/
theorem ama_c7_skip (read : String → ReadResult)
    (embed : List String → Option (List Vector))
    (pre post : List String) (bad : String)
    (h : read bad = .openFail ∨ read bad = .parseFail) :
    buildIndex read embed (pre ++ bad :: post) =
      buildIndex read embed (pre ++ post) := by
  unfold buildIndex
  rw [List.foldl_append, List.foldl_append, List.foldl_cons]
  have hstep : ∀ acc : Index, indexStep read embed acc bad = acc := by
    intro acc
    unfold indexStep
    rcases h with h | h <;> rw [h]
  rw [hstep]

/-- Witness for C7: a concrete corpus where the middle path fails to
open. -/
theorem ama_c7_witness :
    buildIndex read0 embed0 ([pathA] ++ pathBad :: [pathB]) =
      buildIndex read0 embed0 ([pathA] ++ [pathB]) :=
  ama_c7_skip read0 embed0 [pathA] [pathB] pathBad (Or.inl (by decide))

/-- C8: every document produces one more chunk than there are heading
matches in its preprocessed HTML; with zero heading matches the single
chunk is the script-stripped, tag-stripped body, and empty HTML gives
one empty-string chunk. -/
theorem ama_c8_count (d : Document) :
    d.Chunks.length = countHeaders (preChunk d.html.data) + 1 ∧
    (countHeaders (preChunk d.html.data) = 0 →
      d.Chunks = [String.mk (replaceTags (preChunk d.html.data))]) ∧
    (d.html = "" → d.Chunks = [""]) := by
  refine ⟨?_, ?_, ?_⟩
  · simp only [Document.Chunks, List.length_map, splitHeaders, countHeaders]
    exact headGo_length _ _ _
  · intro h
    simp only [countHeaders] at h
    simp only [Document.Chunks, splitHeaders]
    rw [headGo_of_count_zero _ _ _ h]
    simp [headStateBuf]
  · intro h
    simp only [Document.Chunks, h]
    decide

/-- Witness for C8: the zero-heading document and the empty document
of the spec scenario. -/
theorem ama_c8_witness :
    Document.Chunks docB = [String.mk (replaceTags (preChunk docB.html.data))] ∧
    Document.Chunks docEmpty = [""] :=
  ⟨(ama_c8_count docB).2.1 (by decide), (ama_c8_count docEmpty).2.2 (by decide)⟩

/-- C9: the ranking step of the retriever only reorders the in-memory
embeddings sequence (a permutation of what was loaded); the documents
and chunkRefs sequences are untouched, so every positional chunkID and
documentID lookup resolves exactly as before. -/
theorem ama_c9_frame (idx : Index) (q : Vector) :
    (afterQuery idx q).documents = idx.documents ∧
    (afterQuery idx q).chunkRefs = idx.chunkRefs ∧
    ((afterQuery idx q).embeddings).Perm idx.embeddings ∧
    (∀ i : Int, getAt (afterQuery idx q).chunkRefs i = getAt idx.chunkRefs i) ∧
    (∀ i : Int, getAt (afterQuery idx q).documents i = getAt idx.documents i) :=
  ⟨rfl, rfl, List.perm_insertionSort _ _, fun _ => rfl, fun _ => rfl⟩

/-- C10: every index built by the indexing run has exactly as many
embeddings as chunkRefs, and the `chunkID` stored in the embedding at
position `i` is `i` itself — the chunkID indirection is the identity
on freshly built indices. -/
theorem ama_c10_chunkid (read : String → ReadResult)
    (embed : List String → Option (List Vector)) (paths : List String) :
    (buildIndex read embed paths).embeddings.length =
      (buildIndex read embed paths).chunkRefs.length ∧
    ∀ (i : Nat) (e : Embedding),
      (buildIndex read embed paths).embeddings[i]? = some e →
        e.chunkID = (i : Int) := by
  unfold buildIndex
  exact foldl_indexStep_inv read embed paths ⟨[], [], []⟩ rfl
    (by intro i e he; simp at he)

/-- Witness for C10: the second embedding of a concrete two-document
build carries chunkID 1. -/
theorem ama_c10_witness : (⟨[1, 0], 1⟩ : Embedding).chunkID = ((1 : Nat) : Int) :=
  (ama_c10_chunkid read0 embed0 [pathA, pathB]).2 1 ⟨[1, 0], 1⟩ (by decide)

end Ama
